import Mathlib

/-!
Shallow embedding of the yarn.build freshness-audit core:
`FreshnessCatalog` / `FreshnessDetector`, `WorkspaceAuditor` / `WorkspaceReport`,
`ProjectAuditor` and `ReportInspector`, translated from the TypeScript source.

Modelling conventions:
* `Workspace` carries its identity (`id`, standing for JS object identity),
  its `relativeCwd` and the list of dependency `Descriptor`s
  (`workspace.dependencies.values()` in iteration order).
* `Descriptor`s are modelled as natural numbers; `===` on descriptor objects
  becomes equality of those numbers.
* The file-system content under a unit's `source` directory is an explicit
  tree (`FsEntry`/`FsList`), supplied per workspace by `Env.fs`; `stat.mtimeMs`
  values are integers.
* Async methods that mutate objects become pure functions threading explicit
  state; every `Map` becomes an association list with JS `Map.set` semantics
  (`mapSet`: replace in place, else append).
* The recursion of `_auditDependencyWorkspace` is given explicit fuel
  (`auditGo`), returning `none` when fuel runs out; termination of the real
  code corresponds to the theorem that enough fuel always yields `some`.
* `FreshnessCatalog.isFresh` additionally reports how many times it invoked
  the `FreshnessDetector` oracle, so that memoization can be stated.
-/

/-- A dependency descriptor (JS object identity collapsed to a number). -/
abbrev Descriptor := Nat

/-- The parts of a yarn `Workspace` the audit core reads. -/
structure Workspace where
  id : Nat
  relativeCwd : String
  dependencies : List Descriptor
deriving DecidableEq, Repr

mutual

/-- An entry of the scanned directory tree: a file with its `mtimeMs`, a
subdirectory, or anything else (skipped by the scan). -/
inductive FsEntry where
  | file (mtimeMs : Int)
  | dir (entries : FsList)
  | other

/-- A list of directory entries (mutual with `FsEntry`). -/
inductive FsList where
  | nil
  | cons (e : FsEntry) (rest : FsList)

end

/-- The project model plus external world: the previous-run log (key
`"<relativeCwd>#build"` to `lastModified`), the file system under each
workspace's `source` directory (keyed by workspace id), and the current
wall-clock time used when a unit is absent from the log. -/
structure Env where
  runLog : List (String × Int)
  fs : Nat → FsList
  now : Int

/-- The project: its workspaces in enumeration order, the id of the top-level
workspace, and descriptor resolution (`tryWorkspaceByDescriptor`). -/
structure Project where
  workspaces : List Workspace
  topLevelId : Nat
  resolution : List (Descriptor × Workspace)

/-- `project.tryWorkspaceByDescriptor(descriptor)`. -/
def tryWorkspaceByDescriptor (prj : Project) (d : Descriptor) : Option Workspace :=
  List.lookup d prj.resolution

mutual

/-- Inner loop of `FreshnessDetector._getLastModifiedForFolder`: fold the
running maximum over the entries of one folder. -/
def scanList : FsList → Int → Int
  | FsList.nil, acc => acc
  | FsList.cons e rest, acc => scanList rest (scanEntry acc e)

/-- One iteration of the loop body of `_getLastModifiedForFolder`: files
raise the running maximum, directories are scanned recursively (starting a
fresh accumulator 0, as the source does), anything else is skipped. -/
def scanEntry : Int → FsEntry → Int
  | acc, FsEntry.file m => if acc < m then m else acc
  | acc, FsEntry.dir sub =>
    let f := scanList sub 0
    if acc < f then f else acc
  | acc, FsEntry.other => acc

end

/-- `FreshnessDetector._getLastModifiedForFolder(folder)`: the maximum
`mtimeMs` in the tree, starting from 0. -/
def getLastModifiedForFolder (folder : FsList) : Int :=
  scanList folder 0

/-- `FreshnessDetector.isFresh(lastModified)` for the workspace `w`: scan the
unit's source directory and compare `lastModified - timeSource === 0`. -/
def detectorIsFresh (env : Env) (w : Workspace) (lastModified : Int) : Bool :=
  lastModified - getLastModifiedForFolder (env.fs w.id) == 0

/-- The state of a `FreshnessCatalog`: the memo map from workspace (by
identity) to its cached own-files freshness verdict. -/
abbrev Catalog := List (Nat × Bool)

/-- `FreshnessCatalog.wasChecked(workspace)`. -/
def wasChecked (cat : Catalog) (w : Workspace) : Bool :=
  (List.lookup w.id cat).isSome

/-- `FreshnessCatalog.isFresh(workspace)`. Returns the verdict, the updated
catalog state, and how many times the `FreshnessDetector` oracle ran (0 on a
cache hit, 1 on a miss). On a miss the baseline timestamp is the previous-run
log entry for `"<relativeCwd>#build"` when present, else the current time. -/
def catalogIsFresh (env : Env) (cat : Catalog) (w : Workspace) : Bool × Catalog × Nat :=
  match List.lookup w.id cat with
  | some b => (b, cat, 0)
  | none =>
    let lastModified :=
      match List.lookup (w.relativeCwd ++ "#build") env.runLog with
      | some t => t
      | none => env.now
    let fresh := detectorIsFresh env w lastModified
    (fresh, (w.id, fresh) :: cat, 1)

mutual

/-- `WorkspaceReport`: the mutable record filled in during an audit. Fields
left `undefined` in the source are `none` here. -/
inductive Report where
  | mk (workspace : Workspace) (isFresh : Option Bool) (loopsBackToParent : Option Bool)
      (dependenciesWereFresh : Option Bool) (filesWereFresh : Option Bool)
      (fileFreshnessFromCache : Option Bool) (dependencies : DepMap)

/-- The `dependencies` member of a `WorkspaceReport`: a JS `Map` from string
key to child report, kept in insertion order (mutual with `Report`). -/
inductive DepMap where
  | nil
  | cons (key : String) (r : Report) (rest : DepMap)

end

/-- The workspace a report was generated for. -/
def Report.workspace : Report → Workspace
  | Report.mk ws _ _ _ _ _ _ => ws

/-- The `isFresh` field of a report. -/
def Report.isFresh : Report → Option Bool
  | Report.mk _ i _ _ _ _ _ => i

/-- The `loopsBackToParent` field of a report. -/
def Report.loopsBackToParent : Report → Option Bool
  | Report.mk _ _ l _ _ _ _ => l

/-- The `dependenciesWereFresh` field of a report. -/
def Report.dependenciesWereFresh : Report → Option Bool
  | Report.mk _ _ _ d _ _ _ => d

/-- The `filesWereFresh` field of a report. -/
def Report.filesWereFresh : Report → Option Bool
  | Report.mk _ _ _ _ f _ _ => f

/-- The `fileFreshnessFromCache` field of a report. -/
def Report.fileFreshnessFromCache : Report → Option Bool
  | Report.mk _ _ _ _ _ c _ => c

/-- The `dependencies` map of a report. -/
def Report.dependencies : Report → DepMap
  | Report.mk _ _ _ _ _ _ m => m

/-- Assign the `isFresh` field. -/
def Report.setIsFresh : Report → Option Bool → Report
  | Report.mk ws _ l d f c m, v => Report.mk ws v l d f c m

/-- Assign the `loopsBackToParent` field. -/
def Report.setLoops : Report → Option Bool → Report
  | Report.mk ws i _ d f c m, v => Report.mk ws i v d f c m

/-- Assign the `dependenciesWereFresh` field. -/
def Report.setDeps : Report → Option Bool → Report
  | Report.mk ws i l _ f c m, v => Report.mk ws i l v f c m

/-- Assign the `filesWereFresh` field. -/
def Report.setFiles : Report → Option Bool → Report
  | Report.mk ws i l d _ c m, v => Report.mk ws i l d v c m

/-- Assign the `fileFreshnessFromCache` field. -/
def Report.setCache : Report → Option Bool → Report
  | Report.mk ws i l d f _ m, v => Report.mk ws i l d f v m

/-- `new WorkspaceReport(workspace)`: every optional field `undefined`, the
dependencies map empty. -/
def newReport (ws : Workspace) : Report :=
  Report.mk ws none none none none none DepMap.nil

/-- JS `Map.set` on the dependencies map: overwrite in place when the key
exists, append otherwise. -/
def mapSet : DepMap → String → Report → DepMap
  | DepMap.nil, k, v => DepMap.cons k v DepMap.nil
  | DepMap.cons k' v' rest, k, v =>
    if k' == k then DepMap.cons k v rest else DepMap.cons k' v' (mapSet rest k v)

/-- Number of entries of a dependencies map. -/
def DepMap.length : DepMap → Nat
  | DepMap.nil => 0
  | DepMap.cons _ _ rest => rest.length + 1

/-- Is the dependencies map empty? -/
def DepMap.isNil : DepMap → Bool
  | DepMap.nil => true
  | DepMap.cons _ _ _ => false

/-- The loop of `WorkspaceAuditor._auditDependencyWorkspace` over
`workspace.dependencies.values()`. `recurse` is the recursive call (the
auditor one fuel level down); `w` the workspace whose dependencies are walked;
`m` and `df` the dependencies map and `report.dependenciesWereFresh` built so
far. Returns the final map, aggregate flag, catalog state and oracle count,
or `none` when the recursion ran out of fuel. -/
def auditDeps (env : Env) (prj : Project)
    (recurse : Workspace → Catalog → List Descriptor → Option (Report × Bool × Catalog × Nat))
    (w : Workspace) :
    List Descriptor → DepMap → Bool → Catalog → List Descriptor →
    Option (DepMap × Bool × Catalog × Nat)
  | [], m, df, cat, _ => some (m, df, cat, 0)
  | d :: ds, m, df, cat, path =>
    match tryWorkspaceByDescriptor prj d with
    | none => auditDeps env prj recurse w ds m df cat path
    | some dw =>
      if path.contains d then
        let depReport := (newReport dw).setLoops (some true)
        auditDeps env prj recurse w ds (mapSet m w.relativeCwd depReport) df cat path
      else
        match recurse dw cat (path ++ [d]) with
        | none => none
        | some (rc, isDependencyFresh, cat1, k1) =>
          let rc := rc.setLoops (some false)
          let rc := rc.setDeps (some isDependencyFresh)
          let rc := if isDependencyFresh then rc else rc.setIsFresh (some false)
          let df := df && isDependencyFresh
          let rc := rc.setCache (some (wasChecked cat1 dw))
          match catalogIsFresh env cat1 dw with
          | (isFresh, cat2, k2) =>
            let rc := rc.setFiles (some isFresh)
            let rc := if isFresh then rc else rc.setIsFresh (some false)
            let df := df && isFresh
            match auditDeps env prj recurse w ds (mapSet m w.relativeCwd rc) df cat2 path with
            | none => none
            | some (m', df', cat3, k3) => some (m', df', cat3, k1 + k2 + k3)

/-- `WorkspaceAuditor._auditDependencyWorkspace(workspace, catalog, path,
report)`, with explicit fuel for the recursion depth. Returns the filled
report, the returned verdict `dependenciesWereFresh && filesWereFresh`, the
catalog state and the oracle count. -/
def auditGo (env : Env) (prj : Project) :
    Nat → Workspace → Catalog → List Descriptor → Option (Report × Bool × Catalog × Nat)
  | 0, _, _, _ => none
  | fuel + 1, w, cat, path =>
    let fromCache := wasChecked cat w
    match catalogIsFresh env cat w with
    | (fOwn, cat1, k1) =>
      match auditDeps env prj (auditGo env prj fuel) w w.dependencies DepMap.nil true cat1 path with
      | none => none
      | some (m, df, cat2, k2) =>
        some (Report.mk w (some fOwn) none (some df) (some fOwn) (some fromCache) m,
          df && fOwn, cat2, k1 + k2)

/-- `WorkspaceAuditor.audit(freshnessCatalog)`: run the recursive audit from
an empty path and overwrite the root report's `isFresh` with the returned
verdict. -/
def auditWorkspace (env : Env) (prj : Project) (fuel : Nat) (w : Workspace) (cat : Catalog) :
    Option (Report × Catalog × Nat) :=
  match auditGo env prj fuel w cat [] with
  | none => none
  | some (r, v, cat1, k) => some (r.setIsFresh (some v), cat1, k)

/-- Loop of `ProjectAuditor.audit` over `project.workspaces` (the sequential
path, which threads the shared catalog): skip the top-level workspace, skip
workspaces whose `relativeCwd` is not in the targets, audit the rest. -/
def projectAuditGo (env : Env) (prj : Project) (fuel : Nat) (targets : List String) :
    List Workspace → Catalog → Option (List (Workspace × Report) × Catalog)
  | [], cat => some ([], cat)
  | w :: ws, cat =>
    if w.id == prj.topLevelId then
      projectAuditGo env prj fuel targets ws cat
    else if !(targets.contains w.relativeCwd) then
      projectAuditGo env prj fuel targets ws cat
    else
      match auditWorkspace env prj fuel w cat with
      | none => none
      | some (r, cat1, _) =>
        match projectAuditGo env prj fuel targets ws cat1 with
        | none => none
        | some (l, cat2) => some ((w, r) :: l, cat2)

/-- `ProjectAuditor.audit()`: a fresh catalog, then the workspace loop;
the result is the report map in insertion order. -/
def projectAudit (env : Env) (prj : Project) (fuel : Nat) (targets : List String) :
    Option (List (Workspace × Report)) :=
  match projectAuditGo env prj fuel targets prj.workspaces [] with
  | none => none
  | some (l, _) => some l

/-- `BuildInstruction`. -/
structure BuildInstruction where
  workspace : Workspace
deriving DecidableEq, Repr

/-- JS truthiness of a `boolean | undefined` field. -/
def truthy : Option Bool → Bool
  | some true => true
  | _ => false

mutual

/-- `ReportInspector._unrollWorkspaceReport(report, instructions)`, returning
the instructions this call appends. -/
def unrollWorkspaceReport (r : Report) : List BuildInstruction :=
  match r with
  | Report.mk ws i l d f _ m =>
    if truthy l then []
    else if truthy i then []
    else if !truthy d then BuildInstruction.mk ws :: unrollForest m
    else if !truthy f then [BuildInstruction.mk ws]
    else []

/-- The loop over `workspaceReport.dependencies` inside
`_unrollWorkspaceReport`. -/
def unrollForest : DepMap → List BuildInstruction
  | DepMap.nil => []
  | DepMap.cons _ c rest => unrollWorkspaceReport c ++ unrollForest rest

end

/-- `ReportInspector.unroll()`: unroll every root report of the project
report, in order. -/
def unrollProject : List (Workspace × Report) → List BuildInstruction
  | [] => []
  | (_, r) :: rest => unrollWorkspaceReport r ++ unrollProject rest

/-- Is a report a cycle terminator (`loopsBackToParent === true`)? -/
def cycleNode (r : Report) : Bool :=
  r.loopsBackToParent == some true

/-- Are all optional fields other than `loopsBackToParent` still `undefined`
and the dependencies map empty? -/
def blankNode (r : Report) : Bool :=
  r.isFresh == none && r.dependenciesWereFresh == none && r.filesWereFresh == none &&
    r.fileFreshnessFromCache == none && r.dependencies.isNil

/-- Did the report end with `isFresh === true`? -/
def freshNode (r : Report) : Bool :=
  r.isFresh == some true

/-- Every non-cycle child report in the map ended with `isFresh = true`. -/
def allMapFresh : DepMap → Bool
  | DepMap.nil => true
  | DepMap.cons _ c rest => (cycleNode c || freshNode c) && allMapFresh rest

mutual

/-- Invariant of a child report produced by the dependency loop: a cycle
terminator is blank, and a fully processed child has `loopsBackToParent =
false`, `isFresh = dependenciesWereFresh = (dependenciesWereFresh &&
filesWereFresh)`, a cache flag of `true`, fresh map children whenever it is
fresh, and well-formed children of its own. -/
def goodChild : Report → Bool
  | Report.mk _ i l d f c m =>
    match l with
    | some true =>
      i == none && d == none && f == none && c == none && m.isNil
    | some false =>
      match i, d, f with
      | some iv, some dv, some fv =>
        (iv == dv) && (iv == (dv && fv)) && (c == some true) &&
          (!iv || allMapFresh m) && goodForest m
      | _, _, _ => false
    | none => false

/-- Every child report of a dependencies map satisfies `goodChild`. -/
def goodForest : DepMap → Bool
  | DepMap.nil => true
  | DepMap.cons _ c rest => goodChild c && goodForest rest

end

mutual

/-- Does `p` hold of a report and every report nested below it? -/
def allReports (p : Report → Bool) : Report → Bool
  | Report.mk ws i l d f c m =>
    p (Report.mk ws i l d f c m) && allReportsMap p m

/-- Does `p` hold of every report in a dependencies map and below? -/
def allReportsMap (p : Report → Bool) : DepMap → Bool
  | DepMap.nil => true
  | DepMap.cons _ c rest => allReports p c && allReportsMap p rest

end

/-- One catalog state extends another: every cached verdict is preserved. -/
def CatMono (c c' : Catalog) : Prop :=
  ∀ k b, List.lookup k c = some b → List.lookup k c' = some b

/-- What `_auditDependencyWorkspace` guarantees about a successful call
(output report `r`, verdict `v`, final catalog `cat'`, for workspace `w`
entered with catalog `cat`): the report's shape, the verdict equation, the
child invariants, catalog monotonicity and the cached own-files verdict. -/
def GoInv (w : Workspace) (cat : Catalog) (r : Report) (v : Bool) (cat' : Catalog) : Prop :=
  ∃ fOwn df m,
    r = Report.mk w (some fOwn) none (some df) (some fOwn) (some (wasChecked cat w)) m ∧
    v = (df && fOwn) ∧
    goodForest m = true ∧
    (df = true → allMapFresh m = true) ∧
    CatMono cat cat' ∧
    List.lookup w.id cat' = some fOwn

/-- All descriptors the project can resolve (deduplicated): an upper bound
for the traversal path. -/
def descriptorUniverse (prj : Project) : List Descriptor :=
  (prj.resolution.map Prod.fst).dedup

/-- The first child report in a dependencies map, if any. -/
def firstChild (r : Report) : Option Report :=
  match r.dependencies with
  | DepMap.nil => none
  | DepMap.cons _ c _ => some c

/-- The root report of a workspace audit, or an untouched report when the
audit failed (out of fuel). -/
def auditedRoot (env : Env) (prj : Project) (fuel : Nat) (w : Workspace) : Report :=
  match auditWorkspace env prj fuel w [] with
  | some (r, _, _) => r
  | none => newReport w

/-- Claim C4 as a per-node check: every fully processed (non-cycle) report
satisfies `isFresh == (dependenciesWereFresh && filesWereFresh)`. -/
def c4check (r : Report) : Bool :=
  cycleNode r ||
    match r.isFresh, r.dependenciesWereFresh, r.filesWereFresh with
    | some iv, some dv, some fv => iv == (dv && fv)
    | _, _, _ => false

/-- Claim C3 as a per-node check: `dependenciesWereFresh` is `true` iff every
non-cycle child in the dependencies map ended with `isFresh = true`. -/
def c3check (r : Report) : Bool :=
  cycleNode r || ((r.dependenciesWereFresh == some true) == allMapFresh r.dependencies)

/-- The amended claim C3 as a per-node check: a fully processed report has
`dependenciesWereFresh` set; when it is `true` every surviving non-cycle map
child is fresh, and on nested reports it moreover forces
`filesWereFresh = true` (the parent overwrote the field with the subtree
verdict `dependencies && ownFiles`). -/
def c3amendCheck (r : Report) : Bool :=
  cycleNode r ||
    match r.dependenciesWereFresh with
    | some b =>
      (!b || allMapFresh r.dependencies) &&
        (!(r.loopsBackToParent == some false) || (!b || (r.filesWereFresh == some true)))
    | none => false

/-- Claim C8 as a per-node check: a cycle terminator is blank and a leaf. -/
def c8check (r : Report) : Bool :=
  !cycleNode r || blankNode r

/-- Diamond example (claims C1, C2, C3): workspace `a` depends on `b` and
`c`; descriptor 10 resolves to `b`, descriptor 11 to `c`. -/
def wsA : Workspace := { id := 1, relativeCwd := "a", dependencies := [10, 11] }

/-- Workspace `b` of the diamond example, no dependencies. -/
def wsB : Workspace := { id := 2, relativeCwd := "b", dependencies := [] }

/-- Workspace `c` of the diamond example, no dependencies. -/
def wsC : Workspace := { id := 3, relativeCwd := "c", dependencies := [] }

/-- The diamond project: `a`, `b`, `c` plus a top-level workspace id 0. -/
def prjDiamond : Project :=
  { workspaces := [wsA, wsB, wsC], topLevelId := 0,
    resolution := [(10, wsB), (11, wsC)] }

/-- World of the diamond example: every unit was built at time 100; the
sources of `a` and `c` still have maximum mtime 100 (fresh), those of `b`
have maximum mtime 200 (stale). -/
def envDiamond : Env :=
  { runLog := [("a#build", 100), ("b#build", 100), ("c#build", 100)],
    fs := fun i =>
      if i == 2 then FsList.cons (FsEntry.file 200) FsList.nil
      else FsList.cons (FsEntry.file 100) FsList.nil,
    now := 300 }

/-- Cycle example (claim C7): `a` depends on `b` via descriptor 10, `b`
depends on `a` via descriptor 11. -/
def wsCycA : Workspace := { id := 1, relativeCwd := "a", dependencies := [10] }

/-- Workspace `b` of the cycle example. -/
def wsCycB : Workspace := { id := 2, relativeCwd := "b", dependencies := [11] }

/-- The cyclic project `a -> b -> a`. -/
def prjCyc : Project :=
  { workspaces := [wsCycA, wsCycB], topLevelId := 0,
    resolution := [(10, wsCycB), (11, wsCycA)] }

/-- World of the cycle example: both units fresh. -/
def envCyc : Env :=
  { runLog := [("a#build", 100), ("b#build", 100)],
    fs := fun _ => FsList.cons (FsEntry.file 100) FsList.nil,
    now := 300 }

/-- The per-node part of `goodChild`, without the recursion into children. -/
def localGood (r : Report) : Bool :=
  match r.loopsBackToParent with
  | some true => blankNode r
  | some false =>
    match r.isFresh, r.dependenciesWereFresh, r.filesWereFresh with
    | some iv, some dv, some fv =>
      (iv == dv) && (iv == (dv && fv)) && (r.fileFreshnessFromCache == some true) &&
        (!iv || allMapFresh r.dependencies)
    | _, _, _ => false
  | none => false

/-- Chain example (claim C3): `a` depends on `b` alone (descriptor 10). -/
def wsChainA : Workspace := { id := 1, relativeCwd := "a", dependencies := [10] }

/-- Workspace `b` of the chain example, no dependencies. -/
def wsChainB : Workspace := { id := 2, relativeCwd := "b", dependencies := [] }

/-- The chain project `a -> b`. -/
def prjChain : Project :=
  { workspaces := [wsChainA, wsChainB], topLevelId := 0,
    resolution := [(10, wsChainB)] }

/-- World of the chain example: `a` fresh, `b` stale (its sources changed
after the recorded build). -/
def envChain : Env :=
  { runLog := [("a#build", 100), ("b#build", 100)],
    fs := fun i =>
      if i == 2 then FsList.cons (FsEntry.file 200) FsList.nil
      else FsList.cons (FsEntry.file 100) FsList.nil,
    now := 300 }


theorem CatMono.rfl (c : Catalog) : CatMono c c := fun _ _ h => h

theorem CatMono.trans {a b c : Catalog} (h1 : CatMono a b) (h2 : CatMono b c) : CatMono a c :=
  fun k v h => h2 k v (h1 k v h)

theorem catalogIsFresh_lookup {env cat w b c1 k} (h : catalogIsFresh env cat w = (b, c1, k)) :
    List.lookup w.id c1 = some b := by
  unfold catalogIsFresh at h
  cases hl : List.lookup w.id cat with
  | some v => rw [hl] at h; cases h; exact hl
  | none => rw [hl] at h; simp at h; obtain ⟨h1, h2, h3⟩ := h; subst h1; rw [← h2]; simp [List.lookup]

theorem catalogIsFresh_mono {env cat w b c1 k} (h : catalogIsFresh env cat w = (b, c1, k)) :
    CatMono cat c1 := by
  unfold catalogIsFresh at h
  cases hl : List.lookup w.id cat with
  | some v => rw [hl] at h; cases h; exact CatMono.rfl cat
  | none =>
    rw [hl] at h; simp at h; obtain ⟨h1, h2, h3⟩ := h
    intro k' v hv
    rw [← h2, List.lookup_cons]
    cases hk : k' == w.id with
    | true => simp at hk; subst hk; rw [hl] at hv; cases hv
    | false => simpa using hv

theorem catalogIsFresh_cached {env cat w b} (h : List.lookup w.id cat = some b) :
    catalogIsFresh env cat w = (b, cat, 0) := by
  unfold catalogIsFresh; rw [h]

theorem wasChecked_of_lookup {cat w b} (h : List.lookup w.id cat = some b) :
    wasChecked cat w = true := by
  unfold wasChecked; rw [h]; rfl

theorem mapSet_goodForest : ∀ (m : DepMap) (c : Report) (k : String),
    goodForest m = true → goodChild c = true → goodForest (mapSet m k c) = true
  | DepMap.nil, c, k, _, hc => by simp [mapSet, goodForest, hc]
  | DepMap.cons k' v' rest, c, k, hm, hc => by
    simp only [goodForest, Bool.and_eq_true] at hm
    by_cases hk : (k' == k) = true
    · simp [mapSet, hk, goodForest, hc, hm.2]
    · simp only [mapSet, hk]
      simp [goodForest, hm.1, mapSet_goodForest rest c k hm.2 hc]

theorem mapSet_allMapFresh : ∀ (m : DepMap) (c : Report) (k : String),
    allMapFresh m = true → (cycleNode c || freshNode c) = true → allMapFresh (mapSet m k c) = true
  | DepMap.nil, c, k, _, hc => by simp [mapSet, allMapFresh, hc]
  | DepMap.cons k' v' rest, c, k, hm, hc => by
    simp only [allMapFresh, Bool.and_eq_true] at hm
    by_cases hk : (k' == k) = true
    · simp [mapSet, hk, allMapFresh, hc, hm.2]
    · simp only [mapSet, hk]
      simp [allMapFresh, hm.1, mapSet_allMapFresh rest c k hm.2 hc]

theorem goodChild_cycle (dw : Workspace) :
    goodChild ((newReport dw).setLoops (some true)) = true := by
  simp [newReport, Report.setLoops, goodChild, DepMap.isNil]

theorem cycleNode_cycle (dw : Workspace) :
    (cycleNode ((newReport dw).setLoops (some true)) || freshNode ((newReport dw).setLoops (some true))) = true := by
  simp [newReport, Report.setLoops, cycleNode, Report.loopsBackToParent]

theorem auditDeps_inv (env : Env) (prj : Project)
    (recurse : Workspace → Catalog → List Descriptor → Option (Report × Bool × Catalog × Nat))
    (w : Workspace)
    (H : ∀ dw cat path r v cat1 k, recurse dw cat path = some (r, v, cat1, k) → GoInv dw cat r v cat1) :
    ∀ (ds : List Descriptor) (m0 : DepMap) (df0 : Bool) (cat : Catalog) (path : List Descriptor)
      (m : DepMap) (df : Bool) (cat1 : Catalog) (k : Nat),
      auditDeps env prj recurse w ds m0 df0 cat path = some (m, df, cat1, k) →
      goodForest m0 = true → (df0 = true → allMapFresh m0 = true) →
      goodForest m = true ∧ (df = true → allMapFresh m = true) ∧
        (df = true → df0 = true) ∧ CatMono cat cat1 := by
  intro ds
  induction ds with
  | nil =>
    intro m0 df0 cat path m df cat1 k h hm0 hdf0
    simp only [auditDeps, Option.some.injEq, Prod.mk.injEq] at h
    obtain ⟨h1, h2, h3, h4⟩ := h
    subst h1; subst h2; subst h3
    exact ⟨hm0, hdf0, fun x => x, CatMono.rfl cat⟩
  | cons d ds ih =>
    intro m0 df0 cat path m df cat1 k h hm0 hdf0
    cases htw : tryWorkspaceByDescriptor prj d with
    | none =>
      simp only [auditDeps, htw] at h
      exact ih m0 df0 cat path m df cat1 k h hm0 hdf0
    | some dw =>
      by_cases hpc : path.contains d = true
      · simp only [auditDeps, htw, hpc, if_true] at h
        have hgood := mapSet_goodForest m0 _ w.relativeCwd hm0 (goodChild_cycle dw)
        have hfresh : df0 = true → allMapFresh (mapSet m0 w.relativeCwd ((newReport dw).setLoops (some true))) = true :=
          fun hdf => mapSet_allMapFresh m0 _ w.relativeCwd (hdf0 hdf) (cycleNode_cycle dw)
        exact ih _ df0 cat path m df cat1 k h hgood hfresh
      · simp only [auditDeps, htw, hpc, if_false, Bool.false_eq_true] at h
        cases hrec : recurse dw cat (path ++ [d]) with
        | none => rw [hrec] at h; cases h
        | some out =>
          obtain ⟨rc, vDep, catA, k1⟩ := out
          obtain ⟨fc, dc, mc, hrceq, hveq, hgf, hdm, hmono, hlook⟩ :=
            H dw cat (path ++ [d]) rc vDep catA k1 hrec
          subst hrceq
          subst hveq
          simp only [hrec, catalogIsFresh_cached hlook, wasChecked_of_lookup hlook,
            Report.setLoops, Report.setDeps, Report.setCache, Report.setFiles,
            Report.setIsFresh] at h
          cases hdc : dc <;> cases hfc : fc <;> subst hdc <;> subst hfc <;>
            simp only [Bool.and_self, Bool.and_true, Bool.and_false, Bool.true_and,
              Bool.false_and, if_true, if_false, Bool.false_eq_true, Bool.true_eq_false,
              ite_false, ite_true] at h <;>
            split at h
          all_goals
            first
          | (simp at h; done)
          | · rename_i m' df' cat3 k3 heq
              simp only [Option.some.injEq, Prod.mk.injEq] at h
              obtain ⟨e1, e2, e3, e4⟩ := h
              subst e1
              subst e2
              subst e3
              obtain ⟨g1, g2, g3, g4⟩ := ih _ _ _ _ _ _ _ _ heq
                (mapSet_goodForest m0 _ w.relativeCwd hm0
                  (by first
                      | simp [goodChild, hgf, hdm rfl]
                      | simp [goodChild, hgf]))
                (fun hdf => by
                  first
                  | exact absurd hdf Bool.false_ne_true
                  | exact mapSet_allMapFresh m0 _ w.relativeCwd (hdf0 hdf)
                      (by simp [freshNode, Report.isFresh]))
              refine ⟨g1, g2, fun hdf => ?_, hmono.trans g4⟩
              first
              | exact g3 hdf
              | exact absurd (g3 hdf) Bool.false_ne_true

theorem auditGo_inv (env : Env) (prj : Project) :
    ∀ (fuel : Nat) (w : Workspace) (cat : Catalog) (path : List Descriptor)
      (r : Report) (v : Bool) (cat1 : Catalog) (k : Nat),
      auditGo env prj fuel w cat path = some (r, v, cat1, k) → GoInv w cat r v cat1 := by
  intro fuel
  induction fuel with
  | zero => intro w cat path r v cat1 k h; simp [auditGo] at h
  | succ fuel ih =>
    intro w cat path r v cat1 k h
    rcases hcf : catalogIsFresh env cat w with ⟨fOwn, catA, k1⟩
    simp only [auditGo, hcf] at h
    cases hdeps : auditDeps env prj (auditGo env prj fuel) w w.dependencies DepMap.nil true catA path with
    | none => rw [hdeps] at h; cases h
    | some out =>
      obtain ⟨m, df, cat2, k2⟩ := out
      rw [hdeps] at h
      simp only [Option.some.injEq, Prod.mk.injEq] at h
      obtain ⟨e1, e2, e3, e4⟩ := h
      obtain ⟨gm, gdf, gchain, gmono⟩ :=
        auditDeps_inv env prj (auditGo env prj fuel) w
          (fun dw c p r2 v2 c2 k2 hx => ih dw c p r2 v2 c2 k2 hx)
          w.dependencies DepMap.nil true catA path m df cat2 k2 hdeps rfl (fun _ => rfl)
      exact ⟨fOwn, df, m, e1.symm, e2.symm,
        gm, gdf, (catalogIsFresh_mono hcf).trans (e3 ▸ gmono),
        e3 ▸ gmono w.id fOwn (catalogIsFresh_lookup hcf)⟩

theorem depMap_isNil_eq : ∀ (m : DepMap), m.isNil = true → m = DepMap.nil
  | DepMap.nil, _ => rfl

mutual

theorem goodChild_localGood : ∀ (r : Report), goodChild r = true → allReports localGood r = true
  | Report.mk ws i l d f c m => by
    intro h
    cases l with
    | none => simp [goodChild] at h
    | some lb =>
      cases lb with
      | true =>
        simp only [goodChild, Bool.and_eq_true] at h
        obtain ⟨⟨⟨⟨h1, h2⟩, h3⟩, h4⟩, h5⟩ := h
        have hm := depMap_isNil_eq m h5
        subst hm
        simp_all [allReports, allReportsMap, localGood, Report.loopsBackToParent, blankNode,
          Report.isFresh, Report.dependenciesWereFresh, Report.filesWereFresh,
          Report.fileFreshnessFromCache, Report.dependencies, DepMap.isNil]
      | false =>
        cases i with
        | none => simp [goodChild] at h
        | some iv =>
          cases d with
          | none => simp [goodChild] at h
          | some dv =>
            cases f with
            | none => simp [goodChild] at h
            | some fv =>
              simp only [goodChild, Bool.and_eq_true] at h
              obtain ⟨⟨⟨⟨h1, h2⟩, h3⟩, h4⟩, h5⟩ := h
              have hrec := goodForest_localGood m h5
              simp_all [allReports, localGood, Report.loopsBackToParent, Report.isFresh,
                Report.dependenciesWereFresh, Report.filesWereFresh,
                Report.fileFreshnessFromCache, Report.dependencies]

theorem goodForest_localGood : ∀ (m : DepMap), goodForest m = true → allReportsMap localGood m = true
  | DepMap.nil => by intro h; simp [allReportsMap]
  | DepMap.cons k r rest => by
    intro h
    simp only [goodForest, Bool.and_eq_true] at h
    simp [allReportsMap, goodChild_localGood r h.1, goodForest_localGood rest h.2]

end

mutual

theorem allReports_imp (p q : Report → Bool) (hpq : ∀ x, p x = true → q x = true) :
    ∀ (r : Report), allReports p r = true → allReports q r = true
  | Report.mk ws i l d f c m => by
    intro h
    simp only [allReports, Bool.and_eq_true] at h ⊢
    exact ⟨hpq _ h.1, allReportsMap_imp p q hpq m h.2⟩

theorem allReportsMap_imp (p q : Report → Bool) (hpq : ∀ x, p x = true → q x = true) :
    ∀ (m : DepMap), allReportsMap p m = true → allReportsMap q m = true
  | DepMap.nil => by intro h; simp [allReportsMap]
  | DepMap.cons k r rest => by
    intro h
    simp only [allReportsMap, Bool.and_eq_true] at h ⊢
    exact ⟨allReports_imp p q hpq r h.1, allReportsMap_imp p q hpq rest h.2⟩

end

theorem localGood_c4check : ∀ (x : Report), localGood x = true → c4check x = true := by
  intro x h
  obtain ⟨ws, i, l, d, f, c, m⟩ := x
  cases l with
  | none => simp [localGood, Report.loopsBackToParent] at h
  | some lb =>
    cases lb with
    | true => simp [c4check, cycleNode, Report.loopsBackToParent]
    | false =>
      cases i with
      | none => simp [localGood, Report.loopsBackToParent, Report.isFresh] at h
      | some iv =>
        cases d with
        | none => simp [localGood, Report.loopsBackToParent, Report.isFresh,
            Report.dependenciesWereFresh] at h
        | some dv =>
          cases f with
          | none => simp [localGood, Report.loopsBackToParent, Report.isFresh,
              Report.dependenciesWereFresh, Report.filesWereFresh] at h
          | some fv =>
            simp only [localGood, Report.loopsBackToParent, Report.isFresh,
              Report.dependenciesWereFresh, Report.filesWereFresh, Bool.and_eq_true] at h
            simp only [c4check, cycleNode, Report.loopsBackToParent, Report.isFresh,
              Report.dependenciesWereFresh, Report.filesWereFresh]
            cases iv <;> cases dv <;> cases fv <;> simp_all

theorem localGood_c3amendCheck : ∀ (x : Report), localGood x = true → c3amendCheck x = true := by
  intro x h
  obtain ⟨ws, i, l, d, f, c, m⟩ := x
  cases l with
  | none => simp [localGood, Report.loopsBackToParent] at h
  | some lb =>
    cases lb with
    | true => simp [c3amendCheck, cycleNode, Report.loopsBackToParent]
    | false =>
      cases i with
      | none => simp [localGood, Report.loopsBackToParent, Report.isFresh] at h
      | some iv =>
        cases d with
        | none => simp [localGood, Report.loopsBackToParent, Report.isFresh,
            Report.dependenciesWereFresh] at h
        | some dv =>
          cases f with
          | none => simp [localGood, Report.loopsBackToParent, Report.isFresh,
              Report.dependenciesWereFresh, Report.filesWereFresh] at h
          | some fv =>
            simp only [localGood, Report.loopsBackToParent, Report.isFresh,
              Report.dependenciesWereFresh, Report.filesWereFresh, Report.dependencies,
              Bool.and_eq_true] at h
            simp only [c3amendCheck, cycleNode, Report.loopsBackToParent, Report.isFresh,
              Report.dependenciesWereFresh, Report.filesWereFresh, Report.dependencies]
            cases iv <;> cases dv <;> cases fv <;> simp_all

theorem localGood_c8check : ∀ (x : Report), localGood x = true → c8check x = true := by
  intro x h
  obtain ⟨ws, i, l, d, f, c, m⟩ := x
  cases l with
  | none => simp [c8check, cycleNode, Report.loopsBackToParent]
  | some lb =>
    cases lb with
    | true =>
      simp only [localGood, Report.loopsBackToParent] at h
      simp [c8check, cycleNode, Report.loopsBackToParent, h]
    | false => simp [c8check, cycleNode, Report.loopsBackToParent]

theorem auditWorkspace_inv {env : Env} {prj : Project} {fuel : Nat} {w : Workspace}
    {cat : Catalog} {out : Report × Catalog × Nat}
    (h : auditWorkspace env prj fuel w cat = some out) :
    ∃ fOwn df m,
      out.1 = Report.mk w (some (df && fOwn)) none (some df) (some fOwn)
        (some (wasChecked cat w)) m ∧
      goodForest m = true ∧ (df = true → allMapFresh m = true) := by
  unfold auditWorkspace at h
  cases hgo : auditGo env prj fuel w cat [] with
  | none => rw [hgo] at h; cases h
  | some out0 =>
    obtain ⟨r, v, cat1, k⟩ := out0
    rw [hgo] at h
    simp only [Option.some.injEq] at h
    obtain ⟨fOwn, df, m, e1, e2, gm, gdf, _, _⟩ := auditGo_inv env prj fuel w cat [] r v cat1 k hgo
    subst e1
    subst e2
    refine ⟨fOwn, df, m, ?_, gm, gdf⟩
    rw [← h]
    simp [Report.setIsFresh]

/-- Claim C4: every fully processed non-cycle report in the finished tree of a
workspace audit satisfies `isFresh == (dependenciesWereFresh && filesWereFresh)`
(cycle terminators are exempt, as the claim states). -/
theorem c4_isFresh_equation (env : Env) (prj : Project) (fuel : Nat) (w : Workspace) (cat : Catalog)
    (out : Report × Catalog × Nat) (h : auditWorkspace env prj fuel w cat = some out) :
    allReports c4check out.1 = true := by
  obtain ⟨fOwn, df, m, e1, gm, gdf⟩ := auditWorkspace_inv h
  rw [e1]
  simp only [allReports, Bool.and_eq_true]
  constructor
  · simp [c4check, cycleNode, Report.loopsBackToParent, Report.isFresh,
      Report.dependenciesWereFresh, Report.filesWereFresh]
  · exact allReportsMap_imp localGood c4check localGood_c4check m (goodForest_localGood m gm)

/-- Witness for C4 on the concrete diamond project. -/
theorem c4_isFresh_equation_witness :
    allReports c4check ((auditWorkspace envDiamond prjDiamond 4 wsA []).get (by decide)).1 = true :=
  c4_isFresh_equation envDiamond prjDiamond 4 wsA [] _ (Option.some_get _).symm

/-- Counterexample to claim C3 as stated: in the chain project `a -> b` with
`b` stale, the fully processed nested report for `b` has no dependency
children at all (so every non-cycle child trivially ended fresh), yet its
`dependenciesWereFresh` ends `false`, because the parent overwrites the field
with the subtree verdict `dependenciesWereFresh && filesWereFresh`; the
claimed biconditional fails on this tree. -/
theorem c3_counterexample :
    (auditWorkspace envChain prjChain 4 wsChainA []).isSome = true ∧
    allReports c3check (auditedRoot envChain prjChain 4 wsChainA) = false ∧
    (firstChild (auditedRoot envChain prjChain 4 wsChainA)).map Report.dependenciesWereFresh =
      some (some false) ∧
    (firstChild (auditedRoot envChain prjChain 4 wsChainA)).map
      (fun r => r.dependencies.isNil) = some true ∧
    (firstChild (auditedRoot envChain prjChain 4 wsChainA)).map Report.filesWereFresh =
      some (some false) ∧
    (firstChild (auditedRoot envChain prjChain 4 wsChainA)).map Report.loopsBackToParent =
      some (some false) := by decide

/-- Amended claim C3: in every fully processed non-cycle report of a finished
audit tree, `dependenciesWereFresh` is set, and when it is `true` every
non-cycle child report still in the map ended with `isFresh = true`; on nested
reports (`loopsBackToParent = false`) `dependenciesWereFresh = true` moreover
forces `filesWereFresh = true`, because the parent overwrote the field with
the subtree verdict `dependencies && ownFiles` - so the converse direction and
the claim's `in particular` clause hold only for the root report. -/
theorem c3_amended_aggregation (env : Env) (prj : Project) (fuel : Nat) (w : Workspace)
    (cat : Catalog) (out : Report × Catalog × Nat)
    (h : auditWorkspace env prj fuel w cat = some out) :
    allReports c3amendCheck out.1 = true := by
  obtain ⟨fOwn, df, m, e1, gm, gdf⟩ := auditWorkspace_inv h
  rw [e1]
  simp only [allReports, Bool.and_eq_true]
  constructor
  · cases hdf : df with
    | true =>
      simp [c3amendCheck, cycleNode, Report.loopsBackToParent,
        Report.dependenciesWereFresh, Report.dependencies, gdf hdf]
    | false =>
      simp [c3amendCheck, cycleNode, Report.loopsBackToParent,
        Report.dependenciesWereFresh, Report.dependencies]
  · exact allReportsMap_imp localGood c3amendCheck localGood_c3amendCheck m
      (goodForest_localGood m gm)

theorem auditTree_cycleChildren (env : Env) (prj : Project) (fuel : Nat) (w : Workspace)
    (cat : Catalog) (out : Report × Catalog × Nat)
    (h : auditWorkspace env prj fuel w cat = some out) :
    allReports c8check out.1 = true := by
  obtain ⟨fOwn, df, m, e1, gm, gdf⟩ := auditWorkspace_inv h
  rw [e1]
  simp only [allReports, Bool.and_eq_true]
  constructor
  · simp [c8check, cycleNode, Report.loopsBackToParent]
  · exact allReportsMap_imp localGood c8check localGood_c8check m (goodForest_localGood m gm)

/-- Claim C5: once `FreshnessCatalog.isFresh` has produced a verdict for a
unit, any repeated call returns the identical cached boolean, leaves the
catalog unchanged and invokes the `FreshnessDetector` oracle zero times; a
single call invokes it at most once, and after it `wasChecked` is true
(`wasChecked` itself is a pure query of the catalog state). -/
theorem c5_catalog_memoization (env : Env) (cat : Catalog) (w : Workspace) (b : Bool) (c1 : Catalog) (k1 : Nat)
    (h : catalogIsFresh env cat w = (b, c1, k1)) :
    catalogIsFresh env c1 w = (b, c1, 0) ∧ wasChecked c1 w = true ∧ k1 ≤ 1 := by
  have hl := catalogIsFresh_lookup h
  refine ⟨catalogIsFresh_cached hl, wasChecked_of_lookup hl, ?_⟩
  unfold catalogIsFresh at h
  cases hlk : List.lookup w.id cat with
  | some v => rw [hlk] at h; cases h; exact Nat.zero_le 1
  | none => rw [hlk] at h; simp at h; omega

/-- Witness for C5 on the concrete diamond world. -/
theorem c5_catalog_memoization_witness :
    catalogIsFresh envDiamond (catalogIsFresh envDiamond [] wsB).2.1 wsB =
      ((catalogIsFresh envDiamond [] wsB).1, (catalogIsFresh envDiamond [] wsB).2.1, 0) ∧
    wasChecked (catalogIsFresh envDiamond [] wsB).2.1 wsB = true ∧
    (catalogIsFresh envDiamond [] wsB).2.2 ≤ 1 :=
  c5_catalog_memoization envDiamond [] wsB _ _ _ rfl

/-- Claim C6: the decision policy of `_unrollWorkspaceReport` for every report
node: a truthy `loopsBackToParent` emits nothing; otherwise truthy `isFresh`
emits nothing; otherwise a non-truthy `dependenciesWereFresh` emits one
instruction for the unit and recursively unrolls every child in the
dependencies map; otherwise (dependencies fresh, own files stale) it emits
exactly one instruction and does not recurse. -/
theorem c6_unroll_policy (r : Report) :
    (truthy r.loopsBackToParent = true → unrollWorkspaceReport r = []) ∧
    (truthy r.loopsBackToParent = false → truthy r.isFresh = true →
      unrollWorkspaceReport r = []) ∧
    (truthy r.loopsBackToParent = false → truthy r.isFresh = false →
      truthy r.dependenciesWereFresh = false →
      unrollWorkspaceReport r = BuildInstruction.mk r.workspace :: unrollForest r.dependencies) ∧
    (truthy r.loopsBackToParent = false → truthy r.isFresh = false →
      truthy r.dependenciesWereFresh = true → truthy r.filesWereFresh = false →
      unrollWorkspaceReport r = [BuildInstruction.mk r.workspace]) := by
  obtain ⟨ws, i, l, d, f, c, m⟩ := r
  simp only [Report.loopsBackToParent, Report.isFresh, Report.dependenciesWereFresh,
    Report.filesWereFresh, Report.workspace, Report.dependencies]
  refine ⟨fun h1 => ?_, fun h1 h2 => ?_, fun h1 h2 h3 => ?_, fun h1 h2 h3 h4 => ?_⟩
  · rw [unrollWorkspaceReport, h1]
    rfl
  · rw [unrollWorkspaceReport, h1, h2]
    rfl
  · rw [unrollWorkspaceReport, h1, h2, h3]
    rfl
  · rw [unrollWorkspaceReport, h1, h2, h3, h4]
    rfl

/-- Claim C9: `FreshnessDetector.isFresh` answers `true` iff the maximum
modification timestamp found by scanning the unit's source directory is
exactly equal to the baseline; in particular a scanned maximum strictly older
than the baseline also yields not-fresh. -/
theorem c9_detector_exact_equality (env : Env) (w : Workspace) (lastModified : Int) :
    (detectorIsFresh env w lastModified = true ↔
      getLastModifiedForFolder (env.fs w.id) = lastModified) ∧
    (getLastModifiedForFolder (env.fs w.id) < lastModified →
      detectorIsFresh env w lastModified = false) := by
  constructor
  · simp only [detectorIsFresh, beq_iff_eq]
    constructor <;> intro h <;> omega
  · intro hlt
    simp only [detectorIsFresh, beq_eq_false_iff_ne, ne_eq]
    omega

theorem projectAuditGo_keys (env : Env) (prj : Project) (fuel : Nat) (targets : List String) :
    ∀ (ws : List Workspace) (cat : Catalog) (l : List (Workspace × Report)) (cat1 : Catalog),
      projectAuditGo env prj fuel targets ws cat = some (l, cat1) →
      l.map Prod.fst =
        ws.filter (fun w => !(w.id == prj.topLevelId) && targets.contains w.relativeCwd) := by
  intro ws
  induction ws with
  | nil =>
    intro cat l cat1 h
    simp only [projectAuditGo, Option.some.injEq, Prod.mk.injEq] at h
    simp [← h.1]
  | cons w ws ih =>
    intro cat l cat1 h
    by_cases htop : (w.id == prj.topLevelId) = true
    · simp only [projectAuditGo, htop, if_true] at h
      simp [List.filter_cons, htop, ih cat l cat1 h]
    · simp only [projectAuditGo, htop, Bool.false_eq_true, if_false] at h
      by_cases htgt : targets.contains w.relativeCwd = true
      · simp only [htgt, Bool.not_true, Bool.false_eq_true, if_false] at h
        cases haud : auditWorkspace env prj fuel w cat with
        | none => simp only [haud] at h; cases h
        | some out =>
          obtain ⟨r, catA, k⟩ := out
          simp only [haud] at h
          cases hnext : projectAuditGo env prj fuel targets ws catA with
          | none => simp only [hnext] at h; cases h
          | some out2 =>
            obtain ⟨l2, cat2⟩ := out2
            simp only [hnext] at h
            simp only [Option.some.injEq, Prod.mk.injEq] at h
            obtain ⟨e1, e2⟩ := h
            subst e1
            have hmem : w.relativeCwd ∈ targets := by simpa using htgt
            simp [List.filter_cons, htop, hmem, ih catA l2 cat2 hnext]
      · simp only [htgt, Bool.not_false, if_true] at h
        have := ih cat l cat1 h
        have hmem : ¬(w.relativeCwd ∈ targets) := by simpa using htgt
        simp [List.filter_cons, htop, hmem, this]

theorem projectAuditGo_noTargets (env : Env) (prj : Project) (fuel : Nat) :
    ∀ (ws : List Workspace) (cat : Catalog),
      projectAuditGo env prj fuel [] ws cat = some ([], cat) := by
  intro ws
  induction ws with
  | nil => intro cat; simp [projectAuditGo]
  | cons w ws ih =>
    intro cat
    by_cases htop : (w.id == prj.topLevelId) = true
    · simp [projectAuditGo, htop, ih cat]
    · simp [projectAuditGo, htop, List.contains, ih cat]

/-- Claim C10: `ProjectAuditor.audit` returns a report keyed by exactly the
project's non-top-level workspaces whose `relativeCwd` is in the target list,
in project enumeration order; an empty target list always yields an empty
report. -/
theorem c10_project_targets :
    (∀ (env : Env) (prj : Project) (fuel : Nat) (targets : List String)
        (l : List (Workspace × Report)),
      projectAudit env prj fuel targets = some l →
      l.map Prod.fst =
        prj.workspaces.filter
          (fun w => !(w.id == prj.topLevelId) && targets.contains w.relativeCwd)) ∧
    (∀ (env : Env) (prj : Project) (fuel : Nat), projectAudit env prj fuel [] = some []) := by
  constructor
  · intro env prj fuel targets l h
    unfold projectAudit at h
    cases hgo : projectAuditGo env prj fuel targets prj.workspaces [] with
    | none => rw [hgo] at h; cases h
    | some out =>
      obtain ⟨l2, cat2⟩ := out
      rw [hgo] at h
      simp only [Option.some.injEq] at h
      subst h
      exact projectAuditGo_keys env prj fuel targets prj.workspaces [] l2 cat2 hgo
  · intro env prj fuel
    unfold projectAudit
    rw [projectAuditGo_noTargets env prj fuel prj.workspaces []]

/-- Witness for C10 on the diamond project targeted at `a`. -/
theorem c10_project_targets_witness :
    ((projectAudit envDiamond prjDiamond 4 ["a"]).get (by decide)).map Prod.fst =
      prjDiamond.workspaces.filter
        (fun w => !(w.id == prjDiamond.topLevelId) && ["a"].contains w.relativeCwd) :=
  c10_project_targets.1 envDiamond prjDiamond 4 ["a"] _ (Option.some_get _).symm

theorem contains_false_iff (l : List Nat) (a : Nat) : l.contains a = false ↔ a ∉ l := by
  rw [show l.contains a = List.elem a l from rfl, List.elem_eq_mem]
  simp

theorem contains_true_iff (l : List Nat) (a : Nat) : l.contains a = true ↔ a ∈ l := by
  rw [show l.contains a = List.elem a l from rfl, List.elem_eq_mem]
  simp

theorem lookup_mem_fst : ∀ (l : List (Descriptor × Workspace)) (d : Descriptor) (dw : Workspace),
    List.lookup d l = some dw → d ∈ l.map Prod.fst := by
  intro l
  induction l with
  | nil => intro d dw h; simp [List.lookup] at h
  | cons p rest ih =>
    intro d dw h
    obtain ⟨k, v⟩ := p
    rw [List.lookup_cons] at h
    by_cases hk : (d == k) = true
    · simp only [List.map, List.mem_cons]
      left
      exact eq_of_beq hk
    · simp only [Bool.not_eq_true] at hk
      rw [hk] at h
      simp only [List.map, List.mem_cons]
      right
      exact ih d dw h

theorem mem_descriptorUniverse {prj : Project} {d : Descriptor} {dw : Workspace}
    (h : tryWorkspaceByDescriptor prj d = some dw) : d ∈ descriptorUniverse prj := by
  unfold descriptorUniverse
  rw [List.mem_dedup]
  exact lookup_mem_fst _ _ _ h

theorem countP_strict : ∀ (u : List Nat) (p q : Nat → Bool) (d : Nat),
    d ∈ u → (∀ y, q y = true → p y = true) → q d = false → p d = true →
    u.countP q < u.countP p := by
  intro u
  induction u with
  | nil => intro p q d h _ _ _; simp at h
  | cons x xs ih =>
    intro p q d hmem himp hqd hpd
    rw [List.countP_cons, List.countP_cons]
    rcases List.mem_cons.mp hmem with he | hm
    · subst he
      have hle : xs.countP q ≤ xs.countP p :=
        List.countP_mono_left (fun y _ hy => himp y hy)
      rw [hqd, hpd]
      simp only [Bool.false_eq_true, Bool.true_eq_false, if_false, if_true, ite_true, ite_false,
        eq_self_iff_true]
      omega
    · have hlt := ih p q d hm himp hqd hpd
      have hx : (if q x = true then 1 else 0) ≤ (if p x = true then 1 else 0) := by
        by_cases hqx : q x = true
        · simp [hqx, himp x hqx]
        · simp [hqx]
      omega

theorem auditDeps_total (env : Env) (prj : Project)
    (recurse : Workspace → Catalog → List Descriptor → Option (Report × Bool × Catalog × Nat))
    (w : Workspace) (n : Nat)
    (H : ∀ dw cat p, (descriptorUniverse prj).countP (fun x => !p.contains x) < n →
      (recurse dw cat p).isSome = true) :
    ∀ (ds : List Descriptor) (m : DepMap) (df : Bool) (cat : Catalog) (path : List Descriptor),
      (descriptorUniverse prj).countP (fun x => !path.contains x) ≤ n →
      (auditDeps env prj recurse w ds m df cat path).isSome = true := by
  intro ds
  induction ds with
  | nil => intro m df cat path hb; simp [auditDeps]
  | cons d ds ih =>
    intro m df cat path hb
    cases htw : tryWorkspaceByDescriptor prj d with
    | none =>
      simp only [auditDeps, htw]
      exact ih m df cat path hb
    | some dw =>
      by_cases hpc : path.contains d = true
      · simp only [auditDeps, htw, hpc, if_true]
        exact ih _ df cat path hb
      · have hd_univ := mem_descriptorUniverse htw
        have hstrict : (descriptorUniverse prj).countP (fun x => !(path ++ [d]).contains x) <
            (descriptorUniverse prj).countP (fun x => !path.contains x) := by
          apply countP_strict _ _ _ d hd_univ
          · intro y hy
            simp at hy ⊢
            tauto
          · simp
          · simp
            intro hmem
            exact hpc ((contains_true_iff _ _).mpr hmem)
        have hrec := H dw cat (path ++ [d]) (lt_of_lt_of_le hstrict hb)
        rw [Option.isSome_iff_exists] at hrec
        obtain ⟨out, hout⟩ := hrec
        obtain ⟨rc, vDep, catA, k1⟩ := out
        rcases hcf : catalogIsFresh env catA dw with ⟨f2, cat2, k2⟩
        simp only [auditDeps, htw, hpc, hout, hcf, Bool.false_eq_true, if_false]
        split
        · rename_i heq
          exfalso
          have h2 := ih
            (mapSet m w.relativeCwd
              (if f2 = true then
                ((if vDep = true then (rc.setLoops (some false)).setDeps (some vDep)
                        else ((rc.setLoops (some false)).setDeps (some vDep)).setIsFresh
                          (some false)).setCache
                      (some (wasChecked catA dw))).setFiles
                  (some f2)
              else
                (((if vDep = true then (rc.setLoops (some false)).setDeps (some vDep)
                            else ((rc.setLoops (some false)).setDeps (some vDep)).setIsFresh
                              (some false)).setCache
                          (some (wasChecked catA dw))).setFiles
                      (some f2)).setIsFresh
                  (some false)))
            (df && vDep && f2) cat2 path hb
          rw [heq] at h2
          cases h2
        · rfl

theorem auditGo_total (env : Env) (prj : Project) :
    ∀ (fuel : Nat) (w : Workspace) (cat : Catalog) (path : List Descriptor),
      (descriptorUniverse prj).countP (fun x => !path.contains x) < fuel →
      (auditGo env prj fuel w cat path).isSome = true := by
  intro fuel
  induction fuel with
  | zero => intro w cat path h; cases h
  | succ fuel ih =>
    intro w cat path h
    rcases hcf : catalogIsFresh env cat w with ⟨fOwn, catA, k1⟩
    have hdeps := auditDeps_total env prj (auditGo env prj fuel) w fuel
      (fun dw c p hp => ih dw c p hp) w.dependencies DepMap.nil true catA path
      (Nat.lt_succ_iff.mp h)
    rw [Option.isSome_iff_exists] at hdeps
    obtain ⟨out, hout⟩ := hdeps
    obtain ⟨m, df, cat2, k2⟩ := out
    simp only [auditGo, hcf, hout]
    rfl

/-- Claim C7: the recursive audit terminates on every finite dependency
graph - any fuel exceeding the number of resolvable descriptors not already on
the path yields a result - and on the concrete cycle `a -> b -> a` the report
node reached by following an edge already on the traversal path is marked
`loopsBackToParent = true`. -/
theorem c7_audit_terminates :
    (∀ (env : Env) (prj : Project) (fuel : Nat) (w : Workspace) (cat : Catalog)
        (path : List Descriptor),
      (descriptorUniverse prj).countP (fun x => !path.contains x) < fuel →
      (auditGo env prj fuel w cat path).isSome = true) ∧
    ((auditWorkspace envCyc prjCyc 4 wsCycA []).isSome = true ∧
      (((firstChild (auditedRoot envCyc prjCyc 4 wsCycA)).bind firstChild).bind
        firstChild).map Report.loopsBackToParent = some (some true)) := by
  constructor
  · intro env prj fuel w cat path h
    exact auditGo_total env prj fuel w cat path h
  · constructor
    · decide
    · decide

/-- Witness for C7: fuel 3 exceeds the 2 resolvable descriptors of the cyclic
project, so the audit of `a` succeeds. -/
theorem c7_audit_terminates_witness : (auditGo envCyc prjCyc 3 wsCycA [] []).isSome = true :=
  c7_audit_terminates.1 envCyc prjCyc 3 wsCycA [] [] (by decide)

/-- Claim C8: a cycle-terminator report is a blank leaf (all four optional
fields undefined, dependencies empty) in every finished audit tree; the
auditor processes a cycle edge without recursing and without touching the
aggregate flag or the catalog; and the inspector emits nothing for a report
with truthy `loopsBackToParent`. -/
theorem c8_cycle_leaf :
    (∀ (env : Env) (prj : Project) (fuel : Nat) (w : Workspace) (cat : Catalog)
        (out : Report × Catalog × Nat),
      auditWorkspace env prj fuel w cat = some out → allReports c8check out.1 = true) ∧
    (∀ (env : Env) (prj : Project)
        (recurse : Workspace → Catalog → List Descriptor →
          Option (Report × Bool × Catalog × Nat))
        (w : Workspace) (d : Descriptor) (ds : List Descriptor) (m : DepMap) (df : Bool)
        (cat : Catalog) (path : List Descriptor) (dw : Workspace),
      tryWorkspaceByDescriptor prj d = some dw → path.contains d = true →
      auditDeps env prj recurse w (d :: ds) m df cat path =
        auditDeps env prj recurse w ds
          (mapSet m w.relativeCwd ((newReport dw).setLoops (some true))) df cat path) ∧
    (∀ r : Report, truthy r.loopsBackToParent = true → unrollWorkspaceReport r = []) := by
  refine ⟨?_, ?_, ?_⟩
  · intro env prj fuel w cat out h
    exact auditTree_cycleChildren env prj fuel w cat out h
  · intro env prj recurse w d ds m df cat path dw h1 h2
    simp only [auditDeps, h1, h2, if_true]
  · intro r h
    obtain ⟨ws, i, l, d, f, c, m⟩ := r
    simp only [Report.loopsBackToParent] at h
    rw [unrollWorkspaceReport, h]
    rfl

/-- Witness for C8 on the concrete cyclic project. -/
theorem c8_cycle_leaf_witness :
    allReports c8check ((auditWorkspace envCyc prjCyc 4 wsCycA []).get (by decide)).1 = true ∧
    auditDeps envCyc prjCyc (auditGo envCyc prjCyc 0) wsCycA [10] DepMap.nil true [] [10, 11] =
      auditDeps envCyc prjCyc (auditGo envCyc prjCyc 0) wsCycA []
        (mapSet DepMap.nil wsCycA.relativeCwd ((newReport wsCycB).setLoops (some true)))
        true [] [10, 11] ∧
    unrollWorkspaceReport ((newReport wsCycB).setLoops (some true)) = [] :=
  ⟨c8_cycle_leaf.1 envCyc prjCyc 4 wsCycA [] _ (Option.some_get _).symm,
    c8_cycle_leaf.2.1 envCyc prjCyc (auditGo envCyc prjCyc 0) wsCycA 10 [] DepMap.nil true [] [10, 11]
      wsCycB (by decide) (by decide),
    c8_cycle_leaf.2.2 _ (by decide)⟩

/-- Claim C1 fails on the code: workspace `a` has two dependency edges, both
resolving to in-project units, yet its finished report's dependencies map
holds exactly one entry, because `_auditDependencyWorkspace` keys every child
report by the parent's own `relativeCwd`, so later children overwrite earlier
ones. -/
theorem c1_dependency_map_collapsed :
    wsA.dependencies.length = 2 ∧
    (tryWorkspaceByDescriptor prjDiamond 10).isSome = true ∧
    (tryWorkspaceByDescriptor prjDiamond 11).isSome = true ∧
    (auditWorkspace envDiamond prjDiamond 4 wsA []).isSome = true ∧
    (auditedRoot envDiamond prjDiamond 4 wsA).dependencies.length = 1 := by
  refine ⟨rfl, rfl, rfl, by decide, by decide⟩

/-- Claim C2 fails on the code: in the diamond (`a` depends on stale `b` and
fresh `c`, `a` itself unchanged) the unrolled instructions are exactly `[a]` -
the instruction for `b` is missing, since `b`'s child report was overwritten
by `c`'s in the dependencies map before the inspector ran. -/
theorem c2_diamond_unroll :
    (catalogIsFresh envDiamond [] wsA).1 = true ∧
    (catalogIsFresh envDiamond [] wsB).1 = false ∧
    (catalogIsFresh envDiamond [] wsC).1 = true ∧
    (projectAudit envDiamond prjDiamond 4 ["a"]).map unrollProject =
      some [BuildInstruction.mk wsA] := by
  refine ⟨by decide, by decide, by decide, by decide⟩

/-- Witness for C6 on the four concrete report shapes. -/
theorem c6_unroll_policy_witness :
    unrollWorkspaceReport (Report.mk wsA none (some true) none none none DepMap.nil) = [] ∧
    unrollWorkspaceReport (Report.mk wsA (some true) (some false) (some true) (some true)
      (some true) DepMap.nil) = [] ∧
    unrollWorkspaceReport (Report.mk wsA (some false) (some false) (some false) (some false)
      (some true) DepMap.nil) =
      BuildInstruction.mk wsA :: unrollForest DepMap.nil ∧
    unrollWorkspaceReport (Report.mk wsA (some false) (some false) (some true) (some false)
      (some true) DepMap.nil) = [BuildInstruction.mk wsA] :=
  ⟨(c6_unroll_policy _).1 (by decide),
    (c6_unroll_policy _).2.1 (by decide) (by decide),
    (c6_unroll_policy _).2.2.1 (by decide) (by decide) (by decide),
    (c6_unroll_policy _).2.2.2 (by decide) (by decide) (by decide) (by decide)⟩

/-- Witness for C9: baseline 150 with scanned maximum 100 (strictly older) is
not fresh; baseline 100 with scanned maximum 100 is fresh. -/
theorem c9_detector_exact_equality_witness :
    detectorIsFresh envDiamond wsA 150 = false ∧ detectorIsFresh envDiamond wsA 100 = true :=
  ⟨(c9_detector_exact_equality envDiamond wsA 150).2 (by decide),
    ((c9_detector_exact_equality envDiamond wsA 100).1).mpr (by decide)⟩

/-- Witness for the amended C3 on the concrete chain project. -/
theorem c3_amended_aggregation_witness :
    allReports c3amendCheck
      ((auditWorkspace envChain prjChain 4 wsChainA []).get (by decide)).1 = true :=
  c3_amended_aggregation envChain prjChain 4 wsChainA [] _ (Option.some_get _).symm
